import Mathlib

/-!
Shallow embedding of the risk-detection and reporting core of the stand-up
tracking service (main.py, models.py).  Timestamps are modelled as a calendar
day (an integer) paired with a sequence number ordering the instants inside
that day; this represents the datetime values faithfully for everything the
source does with them: ordering comparisons and truncation to a calendar date.
Date and datetime rendering is modelled by injective string functions.
-/

/-- Timestamp: calendar day plus an intra-day sequence number.  Ordering is
lexicographic; the calendar date of a timestamp is its day component. -/
structure Timestamp where
  day : Int
  seq : Nat
deriving DecidableEq

/-- Ordering on timestamps (lexicographic on day then intra-day position). -/
def tsLeP (a b : Timestamp) : Prop :=
  a.day < b.day ∨ (a.day = b.day ∧ a.seq ≤ b.seq)

instance (a b : Timestamp) : Decidable (tsLeP a b) := by
  unfold tsLeP; infer_instance

/-- Python max over datetimes, folded pairwise. -/
def tsMax (a b : Timestamp) : Timestamp := if tsLeP a b then b else a

/-- Standup row of models.py (lines 12-19). -/
structure Standup where
  id : Option Int
  team_id : Int
  user_name : String
  yesterday : String
  today : String
  blockers : Option String
  created_at : Timestamp
deriving DecidableEq

/-- Team row of models.py (lines 6-10). -/
structure Team where
  id : Option Int
  name : String
  lead_name : Option String
  created_at : Timestamp
deriving DecidableEq

/-- One risk finding dict as appended to the risks list in main.py. -/
structure Risk where
  user : String
  type : String
  description : String
deriving DecidableEq

/-- Rendering of a date value in a message string (Python str(date), abstract
but injective). -/
def dateRepr (d : Int) : String := toString d

/-- Rendering of a datetime value (isoformat in the source; abstract but
injective). -/
def tsRepr (t : Timestamp) : String := toString t.day ++ "T" ++ toString t.seq

/-- Python str.strip(): drop leading and trailing whitespace. -/
def pyStrip (s : String) : String :=
  ⟨((s.data.dropWhile Char.isWhitespace).reverse.dropWhile Char.isWhitespace).reverse⟩

/-- Python str.lower() (character-wise lowercasing). -/
def pyLower (s : String) : String := ⟨s.data.map Char.toLower⟩

/-- Python text.strip().lower() as used on the today fields (main.py line 188). -/
def normText (s : String) : String := pyLower (pyStrip s)

/-- Python (blockers or "").strip().lower() on an optional blocker
(main.py lines 195-196); None and the empty string both normalize to "". -/
def normBlock (b : Option String) : String := pyLower (pyStrip (b.getD ""))

/-- The exclusion list of main.py line 197. -/
def noBlockerVals : List String := ["none", "no blockers", "n/a", "na"]

/-- Helper for firstOccs: keep the elements not yet seen, in order of first
occurrence. -/
def firstOccsAux (seen : List String) : List String → List String
  | [] => []
  | u :: rest =>
    if u ∈ seen then firstOccsAux seen rest
    else u :: firstOccsAux (seen ++ [u]) rest

/-- Keys of a Python dict in insertion order: first occurrence of each string. -/
def firstOccs (l : List String) : List String := firstOccsAux [] l

/-- One step of the defaultdict(list) grouping loop of main.py lines 173-175:
append the entry to its user's group, or open a new group at the end. -/
def insertGrouped (acc : List (String × List Standup)) (s : Standup) :
    List (String × List Standup) :=
  match acc with
  | [] => [(s.user_name, [s])]
  | (u, es) :: rest =>
    if u = s.user_name then (u, es ++ [s]) :: rest
    else (u, es) :: insertGrouped rest s

/-- user_entries = defaultdict(list); for s in recent:
user_entries[s.user_name].append(s).  Iterating the dict later visits keys in
insertion order, each with its appended entries in list order. -/
def groupByUser (l : List Standup) : List (String × List Standup) :=
  l.foldl insertGrouped []

/-- by_date[e.created_at.date()] = e over the entries, then by_date.get(d):
the last entry in iteration order whose calendar date is d
(main.py lines 181-185 and 258). -/
def lastOnDate (entries : List Standup) (d : Int) : Option Standup :=
  (entries.filter (fun e => e.created_at.day == d)).getLast?

/-- Python str(optional) with None printed as the string None (f-string use). -/
def optStr (b : Option String) : String :=
  match b with
  | some s => s
  | none => "None"

/-- Description string of the Stale Task finding (main.py line 192). -/
def staleDesc (y t : Int) (txt : String) : String :=
  "Task unchanged between " ++ dateRepr y ++ " and " ++ dateRepr t ++ ": " ++ txt

/-- Description string of the Repeated Blocker finding (main.py line 201). -/
def repeatDesc (y t : Int) (b : Option String) : String :=
  "Same blocker reported on " ++ dateRepr y ++ " and " ++ dateRepr t ++ ": " ++ optStr b

/-- Description string of the Missing Update finding (main.py line 216). -/
def missingDesc (last : Option Timestamp) (days_missing : Int) : String :=
  "Last update was on " ++
    (match last with
     | some t => dateRepr t.day
     | none => "never") ++
    " - no update in last " ++ toString days_missing ++ " days."

/-- Body of the per-user loop of main.py lines 180-202: index the entries by
calendar date (later entries overwrite earlier ones), look up the asOf and
asOf-1 entries, and emit Stale Task and Repeated Blocker findings. -/
def staleRepeatedForUser (today : Int) (user : String) (entries : List Standup) :
    List Risk :=
  match lastOnDate entries today, lastOnDate entries (today - 1) with
  | some today_entry, some yesterday_entry =>
    (if normText today_entry.today = normText yesterday_entry.today then
      [⟨user, "Stale Task", staleDesc (today - 1) today today_entry.today⟩]
     else []) ++
    (if normBlock today_entry.blockers ≠ "" ∧ normBlock yesterday_entry.blockers ≠ "" ∧
        normBlock today_entry.blockers = normBlock yesterday_entry.blockers ∧
        normBlock today_entry.blockers ∉ noBlockerVals then
      [⟨user, "Repeated Blocker", repeatDesc (today - 1) today today_entry.blockers⟩]
     else [])
  | _, _ => []

/-- Code-point lexicographic strict comparison of character sequences,
modelling the text-column collation of the ORDER BY. -/
def strLtB : List Char → List Char → Bool
  | [], [] => false
  | [], _ :: _ => true
  | _ :: _, [] => false
  | a :: as, b :: bs =>
    if a.toNat < b.toNat then true
    else if b.toNat < a.toNat then false
    else strLtB as bs

/-- Strict order on user names. -/
def userLt (a b : String) : Prop := strLtB a.data b.data = true

instance (a b : String) : Decidable (userLt a b) := by
  unfold userLt; infer_instance

/-- ORDER BY user_name, created_at of the 7-day SELECT (main.py line 169). -/
def entryLeP (a b : Standup) : Prop :=
  userLt a.user_name b.user_name ∨
    (a.user_name = b.user_name ∧ tsLeP a.created_at b.created_at)

instance (a b : Standup) : Decidable (entryLeP a b) := by
  unfold entryLeP; infer_instance

/-- The 7-day SELECT of main.py lines 166-170 (and 246-250): entries of the
team with created_at on or after midnight of asOf-7 (no upper bound), ordered
by (user_name, created_at). -/
def sortedWindow (db : List Standup) (team_id asOf : Int) : List Standup :=
  List.insertionSort entryLeP
    (db.filter (fun s => s.team_id == team_id && decide (asOf - 7 ≤ s.created_at.day)))

/-- All of a team's entries (WHERE Standup.team_id == team_id over the store). -/
def teamHistory (db : List Standup) (team_id : Int) : List Standup :=
  db.filter (fun s => s.team_id == team_id)

/-- SELECT user_name, max(created_at) GROUP BY user_name restricted to the
team (main.py lines 205-208): the latest created_at over a user's history. -/
def lastAt (hist : List Standup) (u : String) : Option Timestamp :=
  match (hist.filter (fun s => s.user_name == u)).map (fun s => s.created_at) with
  | [] => none
  | t :: ts => some (ts.foldl tsMax t)

/-- Body of the loop of main.py lines 209-217 for one group-by row: emit a
Missing Update finding when the last timestamp is absent or its calendar date
is before asOf - (days_missing - 1). -/
def missingRowRisk (hist : List Standup) (asOf days_missing : Int) (u : String) :
    Option Risk :=
  match lastAt hist u with
  | none => some ⟨u, "Missing Update", missingDesc none days_missing⟩
  | some t =>
    if t.day < asOf - (days_missing - 1) then
      some ⟨u, "Missing Update", missingDesc (some t) days_missing⟩
    else none

/-- Loop of main.py lines 209-217: one group-by row per user seen in the team
history. -/
def missingRisks (hist : List Standup) (asOf : Int) (days_missing : Int) : List Risk :=
  (firstOccs (hist.map (fun s => s.user_name))).filterMap (missingRowRisk hist asOf days_missing)

/-- Risk list assembled by get_risk_report (main.py lines 160-218): the
stale/repeated findings per user over the 7-day window, followed by the
missing-update findings over the full team history. -/
def get_risk_report (db : List Standup) (team_id asOf days_missing : Int) : List Risk :=
  let recent := sortedWindow db team_id asOf
  let user_entries := groupByUser recent
  let risks := user_entries.flatMap (fun g => staleRepeatedForUser asOf g.1 g.2)
  risks ++ missingRisks (teamHistory db team_id) asOf days_missing

/-- Body of the per-user loop of get_dashboard, main.py lines 257-275: a
duplicate of the risk-report loop body. -/
def dashboardPairRisks (today : Int) (user : String) (entries : List Standup) :
    List Risk :=
  match lastOnDate entries today, lastOnDate entries (today - 1) with
  | some today_entry, some yesterday_entry =>
    (if normText today_entry.today = normText yesterday_entry.today then
      [⟨user, "Stale Task", staleDesc (today - 1) today today_entry.today⟩]
     else []) ++
    (if normBlock today_entry.blockers ≠ "" ∧ normBlock yesterday_entry.blockers ≠ "" ∧
        normBlock today_entry.blockers = normBlock yesterday_entry.blockers ∧
        normBlock today_entry.blockers ∉ noBlockerVals then
      [⟨user, "Repeated Blocker", repeatDesc (today - 1) today today_entry.blockers⟩]
     else [])
  | _, _ => []

/-- Risk list assembled inside get_dashboard (main.py lines 244-275); note it
runs only the stale/repeated loop, with no missing-update section. -/
def dashboardRisks (db : List Standup) (team_id asOf : Int) : List Risk :=
  let recent := sortedWindow db team_id asOf
  let user_entries := groupByUser recent
  user_entries.flatMap (fun g => dashboardPairRisks asOf g.1 g.2)

/-- Prompt line per standup of main.py lines 38-41; Python renders a missing
or empty blocker as the string None via the or-expression. -/
def promptLine (s : Standup) : String :=
  "User: " ++ s.user_name ++ "\nYesterday: " ++ s.yesterday ++ "\nToday: " ++ s.today ++
  "\nBlockers: " ++
    (match s.blockers with
     | some b => if b = "" then "None" else b
     | none => "None")

/-- Fixed prompt text surrounding the reports (main.py lines 43-51). -/
def promptHeader : String :=
  "\nYou are an assistant summarizing daily stand-up updates.\nFor each user, provide concise bullet points summarizing their yesterday/today work.\nInclude blockers if present.\nEnd with one concise overall team summary.\n\nReports:\n"

/-- One block of the rule-based fallback (main.py lines 72-76): the blocker
line is added only when blockers is truthy and strip().lower() is not none. -/
def fallbackLine (s : Standup) : String :=
  match s.blockers with
  | some b =>
    if b ≠ "" ∧ pyLower (pyStrip b) ≠ "none" then
      "**" ++ s.user_name ++ "**\n- Yesterday: " ++ s.yesterday ++ "\n- Today: " ++ s.today
        ++ "\n- Blocker: " ++ b
    else
      "**" ++ s.user_name ++ "**\n- Yesterday: " ++ s.yesterday ++ "\n- Today: " ++ s.today
  | none => "**" ++ s.user_name ++ "**\n- Yesterday: " ++ s.yesterday ++ "\n- Today: " ++ s.today

/-- The rule-based fallback summary (main.py lines 70-78). -/
def fallbackSummary (standups : List Standup) : String :=
  let overall := String.intercalate "\n\n" (standups.map fallbackLine)
  "**Daily Stand-up Summary**\n\n" ++ overall ++
  "\n\n**Team Summary:** The team is progressing; check blockers above."

/-- summarize_standups (main.py lines 33-78).  The Groq client is modelled as
an optional generation function that may fail; a thrown failure falls through
to the rule-based fallback, as does an unconfigured client. -/
def summarize_standups (standups : List Standup)
    (client : Option (String → Except String String)) : String :=
  if standups = [] then "No stand-up updates found for today."
  else
    match client with
    | some g =>
      match g (promptHeader ++ String.intercalate "\n" (standups.map promptLine) ++ "\n") with
      | Except.ok r => pyStrip r
      | Except.error _ => fallbackSummary standups
    | none => fallbackSummary standups

/-- SELECT of main.py lines 231-235: entries of the team whose created_at
falls within the asOf calendar day. -/
def todays_standups (db : List Standup) (team_id asOf : Int) : List Standup :=
  db.filter (fun s => s.team_id == team_id && s.created_at.day == asOf)

/-- latest_entries = a dict comprehension keyed by user_name, then its values
(main.py lines 239-240): keys in first-occurrence order, each mapped to the
last entry of that user in list order. -/
def latestPerUser (standups : List Standup) : List Standup :=
  (firstOccs (standups.map (fun s => s.user_name))).filterMap
    (fun u => (standups.filter (fun s => s.user_name == u)).getLast?)

/-- JSON values, used to state the payload shapes literally. -/
inductive J where
  | jnull : J
  | jstr : String → J
  | jint : Int → J
  | jarr : List J → J
  | jobj : List (String × J) → J

/-- Top-level field names of a JSON object. -/
def J.keys : J → List String
  | J.jobj kvs => kvs.map Prod.fst
  | _ => []

/-- Field lookup in a JSON object. -/
def J.find : J → String → Option J
  | J.jobj kvs, k => List.lookup k kvs
  | _, _ => none

/-- One risk dict, as serialized. -/
def riskToJ (r : Risk) : J :=
  J.jobj [("user", J.jstr r.user), ("type", J.jstr r.type),
          ("description", J.jstr r.description)]

/-- One update record of the dashboard payload (main.py lines 283-289). -/
def updateToJ (s : Standup) : J :=
  J.jobj [("user", J.jstr s.user_name), ("yesterday", J.jstr s.yesterday),
          ("today", J.jstr s.today),
          ("blockers",
            match s.blockers with
            | some b => J.jstr b
            | none => J.jnull),
          ("created_at", J.jstr (tsRepr s.created_at))]

/-- The JSON body returned by /risk/today (main.py lines 219-220). -/
def riskReportPayload (db : List Standup) (team_id asOf days_missing : Int) : J :=
  J.jobj [("team_id", J.jint team_id), ("date", J.jstr (dateRepr asOf)),
          ("risks", J.jarr ((get_risk_report db team_id asOf days_missing).map riskToJ))]

/-- The JSON body returned by /dashboard/today (main.py lines 225-292), which
the chat-delivery path fetches and consumes. -/
def get_dashboard (db : List Standup) (team_id asOf : Int)
    (client : Option (String → Except String String)) : J :=
  let standups := latestPerUser (todays_standups db team_id asOf)
  let summary := summarize_standups standups client
  let risks := dashboardRisks db team_id asOf
  J.jobj [("team_id", J.jint team_id), ("date", J.jstr (dateRepr asOf)),
          ("summary", J.jstr summary),
          ("risks", J.jarr (risks.map riskToJ)),
          ("updates", J.jarr (standups.map updateToJ))]

/-- submit_standup (main.py lines 115-135) over an explicit store: validate
the team by primary key, reject with a 404 before saving when absent,
otherwise save and attempt the chat delivery, whose failure is swallowed.
Returns the store after the call together with the HTTP outcome. -/
def submit_standup (teams : List Team) (store : List Standup) (standup : Standup)
    (slack : Except String Unit) : List Standup × Except String String :=
  match teams.find? (fun t => t.id == some standup.team_id) with
  | none => (store, Except.error "Team not found")
  | some _ =>
    let store1 := store ++ [standup]
    match slack with
    | Except.ok _ => (store1, Except.ok "Stand-up submitted successfully")
    | Except.error _ => (store1, Except.ok "Stand-up submitted successfully")

/-- Entries of one user on one calendar date inside the 7-day window fetch,
used to state the risk-detection claims. -/
def userDayEntries (db : List Standup) (team_id asOf : Int) (u : String) (d : Int) :
    List Standup :=
  (db.filter (fun s => s.team_id == team_id && decide (asOf - 7 ≤ s.created_at.day))).filter
    (fun s => s.user_name == u && s.created_at.day == d)

/-- Stale Task findings of one user. -/
def staleFor (risks : List Risk) (u : String) : List Risk :=
  risks.filter (fun r => r.user == u && r.type == "Stale Task")

/-- Repeated Blocker findings of one user. -/
def repeatedFor (risks : List Risk) (u : String) : List Risk :=
  risks.filter (fun r => r.user == u && r.type == "Repeated Blocker")

/-- Missing Update findings of one user. -/
def missingFor (risks : List Risk) (u : String) : List Risk :=
  risks.filter (fun r => r.user == u && r.type == "Missing Update")

/-- Convenience constructor for concrete entries in examples. -/
def mkSt (n : Int) (team : Int) (u y t : String) (b : Option String)
    (day : Int) (seq : Nat) : Standup :=
  ⟨some n, team, u, y, t, b, ⟨day, seq⟩⟩

/-- Users of the entry list in dict-key (first-occurrence) order. -/
def usersOf (l : List Standup) : List String := firstOccs (l.map (fun s => s.user_name))

/-- Canonical form of the defaultdict grouping: first-occurrence keys, each
with that user's entries in list order. -/
def canonGroups (l : List Standup) : List (String × List Standup) :=
  (usersOf l).map (fun u => (u, l.filter (fun s => s.user_name == u)))

/-- Modelled from the claim: fallback block whose blocker line appears iff
the blocker is present and its normalized form is outside the full
no-blocker class (empty, none, no blockers, n/a, na). -/
def claimBlock (s : Standup) : String :=
  if s.blockers ≠ none ∧ normBlock s.blockers ∉ ("" :: noBlockerVals) then
    "**" ++ s.user_name ++ "**\n- Yesterday: " ++ s.yesterday ++ "\n- Today: " ++ s.today
      ++ "\n- Blocker: " ++ s.blockers.getD ""
  else
    "**" ++ s.user_name ++ "**\n- Yesterday: " ++ s.yesterday ++ "\n- Today: " ++ s.today

/-- Modelled from the claim: the whole fallback template under the claim's
blocker-line rule. -/
def claimFallbackTemplate (l : List Standup) : String :=
  "**Daily Stand-up Summary**\n\n" ++
    String.intercalate "\n\n" (l.map claimBlock) ++
    "\n\n**Team Summary:** The team is progressing; check blockers above."

/-- Modelled from the amended claim: the blocker line appears iff the blocker
is present, nonempty, and its trimmed lowercased form is not the string
none (so the values no blockers, n/a, na and whitespace-only blockers do get
a blocker line). -/
def amendedBlock (s : Standup) : String :=
  if s.blockers ≠ none ∧ s.blockers.getD "" ≠ "" ∧
      pyLower (pyStrip (s.blockers.getD "")) ≠ "none" then
    "**" ++ s.user_name ++ "**\n- Yesterday: " ++ s.yesterday ++ "\n- Today: " ++ s.today
      ++ "\n- Blocker: " ++ s.blockers.getD ""
  else
    "**" ++ s.user_name ++ "**\n- Yesterday: " ++ s.yesterday ++ "\n- Today: " ++ s.today

/-- Modelled from the amended claim: the whole fallback template. -/
def amendedFallbackTemplate (l : List Standup) : String :=
  "**Daily Stand-up Summary**\n\n" ++
    String.intercalate "\n\n" (l.map amendedBlock) ++
    "\n\n**Team Summary:** The team is progressing; check blockers above."

/-! Concrete scenarios used by the counterexamples and witnesses. -/

def exC1 : List Standup :=
  [mkSt 1 1 "alice" "planning" "fix bug" none 9 0,
   mkSt 2 1 "alice" "planning" "fix bug" none 10 0]

def exC2 : List Standup := [mkSt 1 1 "alice" "planning" "testing" none 7 0]

def eC3a : Standup := mkSt 1 1 "alice" "wrote docs" "first task" none 10 5

def eC3b : Standup := mkSt 2 1 "alice" "wrote docs" "second task" none 10 3

def exC4 : List Standup :=
  [mkSt 1 1 "alice" "planning" "Fix bug" none 9 0,
   mkSt 2 1 "alice" "planning" "fix BUG " none 10 0]

def exC5 : List Standup :=
  [mkSt 1 1 "bob" "planning" "task one" (some "Waiting on API access") 9 0,
   mkSt 2 1 "bob" "planning" "task two" (some "waiting on api ACCESS") 10 1]

def exC6 : List Standup :=
  [mkSt 1 1 "carol" "planning" "testing" none 7 0,
   mkSt 2 1 "dave" "planning" "reviewing" none 9 0]

def exC7 : List Standup := [mkSt 1 1 "alice" "planning" "testing" none 10 0]

def failingGen : String → Except String String := fun _ => Except.error "boom"

def eC8 : Standup := mkSt 1 1 "alice" "did x" "do y" (some "n/a") 10 0

def teamC9 : Team := ⟨some 1, "core", none, ⟨0, 0⟩⟩

def stC9 : Standup := mkSt 7 1 "alice" "planning" "testing" none 10 0

def stC9bad : Standup := mkSt 8 2 "alice" "planning" "testing" none 10 0


/-! Basic facts about the timestamp order. -/

lemma tsLeP_refl (a : Timestamp) : tsLeP a a := Or.inr ⟨rfl, le_refl _⟩

lemma tsLeP_trans {a b c : Timestamp} (h1 : tsLeP a b) (h2 : tsLeP b c) : tsLeP a c := by
  unfold tsLeP at h1 h2 ⊢
  omega

lemma tsLeP_total (a b : Timestamp) : tsLeP a b ∨ tsLeP b a := by
  unfold tsLeP
  omega

lemma tsMax_left (a b : Timestamp) : tsLeP a (tsMax a b) := by
  unfold tsMax
  split
  · assumption
  · exact tsLeP_refl a

lemma tsMax_right (a b : Timestamp) : tsLeP b (tsMax a b) := by
  unfold tsMax
  split
  · exact tsLeP_refl b
  · rcases tsLeP_total a b with h | h
    · exact absurd h (by assumption)
    · exact h

lemma tsMax_cases (a b : Timestamp) : tsMax a b = a ∨ tsMax a b = b := by
  unfold tsMax
  split
  · exact Or.inr rfl
  · exact Or.inl rfl

/-! Facts about the code-point string comparison. -/

lemma charToNat_inj {a b : Char} (h : a.toNat = b.toNat) : a = b :=
  Char.eq_of_val_eq (UInt32.ext h)

lemma strLtB_cons_iff {a b : Char} {as bs : List Char} :
    strLtB (a :: as) (b :: bs) = true ↔
      a.toNat < b.toNat ∨ (a.toNat = b.toNat ∧ strLtB as bs = true) := by
  by_cases h1 : a.toNat < b.toNat
  · simp [strLtB, h1]
  · by_cases h2 : b.toNat < a.toNat
    · simp only [strLtB, if_neg h1, if_pos h2]
      constructor
      · intro h
        exact absurd h (by simp)
      · intro h
        rcases h with h | ⟨h, _⟩
        · omega
        · omega
    · have he : a.toNat = b.toNat := by omega
      simp [strLtB, if_neg h1, if_neg h2, he]

lemma strLtB_nil_cons (b : Char) (bs : List Char) : strLtB [] (b :: bs) = true := rfl

lemma strLtB_not_nil (x : List Char) : strLtB x [] = false := by
  cases x <;> rfl

lemma strLtB_trans : ∀ x y z : List Char,
    strLtB x y = true → strLtB y z = true → strLtB x z = true
  | [], y, z, h1, h2 => by
    cases y with
    | nil => simp [strLtB] at h1
    | cons b bs =>
      cases z with
      | nil => simp [strLtB_not_nil] at h2
      | cons c cs => exact strLtB_nil_cons c cs
  | _ :: _, y, z, h1, h2 => by
    cases y with
    | nil => simp [strLtB_not_nil] at h1
    | cons b bs =>
      cases z with
      | nil => simp [strLtB_not_nil] at h2
      | cons c cs =>
        rw [strLtB_cons_iff] at h1 h2 ⊢
        rcases h1 with h1 | ⟨h1e, h1r⟩ <;> rcases h2 with h2 | ⟨h2e, h2r⟩
        · exact Or.inl (by omega)
        · exact Or.inl (by omega)
        · exact Or.inl (by omega)
        · exact Or.inr ⟨by omega, strLtB_trans _ _ _ h1r h2r⟩

lemma strLtB_eq_of_not : ∀ {x y : List Char},
    strLtB x y = false → strLtB y x = false → x = y
  | [], [], _, _ => rfl
  | [], _ :: _, h1, _ => by simp [strLtB_nil_cons] at h1
  | _ :: _, [], _, h2 => by simp [strLtB_nil_cons] at h2
  | a :: as, b :: bs, h1, h2 => by
    by_cases hab : a.toNat < b.toNat
    · have : strLtB (a :: as) (b :: bs) = true := strLtB_cons_iff.mpr (Or.inl hab)
      rw [this] at h1
      exact absurd h1 (by simp)
    · by_cases hba : b.toNat < a.toNat
      · have : strLtB (b :: bs) (a :: as) = true := strLtB_cons_iff.mpr (Or.inl hba)
        rw [this] at h2
        exact absurd h2 (by simp)
      · have he : a = b := charToNat_inj (by omega)
        have hr1 : strLtB as bs = false := by
          by_contra hx
          have : strLtB (a :: as) (b :: bs) = true :=
            strLtB_cons_iff.mpr (Or.inr ⟨by omega, by simpa using hx⟩)
          rw [this] at h1
          exact absurd h1 (by simp)
        have hr2 : strLtB bs as = false := by
          by_contra hx
          have : strLtB (b :: bs) (a :: as) = true :=
            strLtB_cons_iff.mpr (Or.inr ⟨by omega, by simpa using hx⟩)
          rw [this] at h2
          exact absurd h2 (by simp)
        rw [he, strLtB_eq_of_not hr1 hr2]

lemma strLtB_irrefl : ∀ x : List Char, strLtB x x = false
  | [] => rfl
  | a :: as => by simp [strLtB, strLtB_irrefl as]

lemma userLt_irrefl (u : String) : ¬ userLt u u := by
  unfold userLt
  rw [strLtB_irrefl]
  simp

/-! The ORDER BY relation is total and transitive, so insertion sort sorts it. -/

instance : IsTotal Standup entryLeP where
  total a b := by
    by_cases h1 : strLtB a.user_name.data b.user_name.data = true
    · exact Or.inl (Or.inl h1)
    · by_cases h2 : strLtB b.user_name.data a.user_name.data = true
      · exact Or.inr (Or.inl h2)
      · have he : a.user_name = b.user_name :=
          String.ext (strLtB_eq_of_not (by simpa using h1) (by simpa using h2))
        rcases tsLeP_total a.created_at b.created_at with h | h
        · exact Or.inl (Or.inr ⟨he, h⟩)
        · exact Or.inr (Or.inr ⟨he.symm, h⟩)

instance : IsTrans Standup entryLeP where
  trans a b c h1 h2 := by
    rcases h1 with h1 | ⟨e1, t1⟩ <;> rcases h2 with h2 | ⟨e2, t2⟩
    · exact Or.inl (strLtB_trans _ _ _ h1 h2)
    · exact Or.inl (e2 ▸ h1)
    · exact Or.inl (e1.symm ▸ h2)
    · exact Or.inr ⟨e1.trans e2, tsLeP_trans t1 t2⟩

/-! Dict-semantics lemmas: first-occurrence key order, and the bridge from the
foldl form of the grouping loop to a canonical map-filter form. -/

lemma firstOccsAux_congr {s1 s2 : List String} (h : ∀ a, a ∈ s1 ↔ a ∈ s2) :
    ∀ l, firstOccsAux s1 l = firstOccsAux s2 l := by
  intro l
  induction l generalizing s1 s2 with
  | nil => rfl
  | cons u rest ih =>
    simp only [firstOccsAux]
    by_cases hu : u ∈ s1
    · rw [if_pos hu, if_pos ((h u).mp hu), ih h]
    · rw [if_neg hu, if_neg (fun hx => hu ((h u).mpr hx))]
      congr 1
      apply ih
      intro a
      simp only [List.mem_append, List.mem_singleton]
      exact or_congr (h a) Iff.rfl

lemma mem_firstOccsAux {a : String} :
    ∀ {l seen : List String}, a ∈ firstOccsAux seen l ↔ a ∈ l ∧ a ∉ seen := by
  intro l
  induction l with
  | nil => intro seen; simp [firstOccsAux]
  | cons u rest ih =>
    intro seen
    simp only [firstOccsAux]
    by_cases hu : u ∈ seen
    · rw [if_pos hu, ih]
      constructor
      · rintro ⟨hr, hs⟩
        exact ⟨List.mem_cons_of_mem _ hr, hs⟩
      · rintro ⟨hr, hs⟩
        rcases List.mem_cons.mp hr with rfl | hr
        · exact absurd hu hs
        · exact ⟨hr, hs⟩
    · rw [if_neg hu]
      constructor
      · intro hx
        rcases List.mem_cons.mp hx with rfl | hx2
        · exact ⟨List.mem_cons_self _ _, hu⟩
        · have h2 := (@ih (seen ++ [u])).mp hx2
          refine ⟨List.mem_cons_of_mem _ h2.1, ?_⟩
          intro hx3
          exact h2.2 (List.mem_append_left _ hx3)
      · rintro ⟨hm, hs⟩
        rcases List.mem_cons.mp hm with rfl | hm2
        · exact List.mem_cons_self _ _
        · by_cases hau : a = u
          · rw [hau]
            exact List.mem_cons_self _ _
          · apply List.mem_cons_of_mem
            apply (@ih (seen ++ [u])).mpr
            refine ⟨hm2, ?_⟩
            intro hx3
            rcases List.mem_append.mp hx3 with hx3 | hx3
            · exact hs hx3
            · exact hau (List.mem_singleton.mp hx3)

lemma nodup_firstOccsAux : ∀ (l seen : List String), (firstOccsAux seen l).Nodup := by
  intro l
  induction l with
  | nil =>
    intro seen
    simp [firstOccsAux]
  | cons u rest ih =>
    intro seen
    simp only [firstOccsAux]
    by_cases hu : u ∈ seen
    · rw [if_pos hu]
      exact ih seen
    · rw [if_neg hu]
      refine List.Nodup.cons ?_ (ih (seen ++ [u]))
      intro hx
      have := (mem_firstOccsAux.mp hx).2
      simp at this

lemma firstOccsAux_append (l1 : List String) :
    ∀ (seen l2 : List String),
      firstOccsAux seen (l1 ++ l2) = firstOccsAux seen l1 ++ firstOccsAux (seen ++ l1) l2 := by
  induction l1 with
  | nil =>
    intro seen l2
    simp [firstOccsAux]
  | cons u rest ih =>
    intro seen l2
    simp only [List.cons_append, firstOccsAux, List.append_eq]
    by_cases hu : u ∈ seen
    · rw [if_pos hu, if_pos hu, ih]
      congr 1
      apply firstOccsAux_congr
      intro a
      simp only [List.mem_append, List.mem_cons]
      constructor
      · rintro (hs | hr)
        · exact Or.inl hs
        · exact Or.inr (Or.inr hr)
      · rintro (hs | rfl | hr)
        · exact Or.inl hs
        · exact Or.inl hu
        · exact Or.inr hr
    · rw [if_neg hu, if_neg hu, ih]
      simp only [List.cons_append, List.append_assoc, List.singleton_append,
        List.nil_append]

lemma mem_firstOccs {a : String} {l : List String} : a ∈ firstOccs l ↔ a ∈ l := by
  unfold firstOccs
  rw [mem_firstOccsAux]
  simp

lemma nodup_firstOccs (l : List String) : (firstOccs l).Nodup := nodup_firstOccsAux l []

lemma firstOccs_append_singleton (us : List String) (u : String) :
    firstOccs (us ++ [u]) = firstOccs us ++ (if u ∈ us then [] else [u]) := by
  unfold firstOccs
  rw [firstOccsAux_append, List.nil_append]
  have h1 : firstOccsAux us [u] = if u ∈ us then [] else [u] := by
    simp [firstOccsAux]
  rw [h1]

lemma filter_single (p : Standup → Bool) (s : Standup) :
    List.filter p [s] = if p s = true then [s] else [] := by
  rcases h : p s with _ | _
  · simp [List.filter_singleton, h]
  · simp [List.filter_singleton, h]

lemma filter_append_single_eq {pref : List Standup} {s : Standup} {u : String}
    (hne : s.user_name ≠ u) :
    List.filter (fun e => e.user_name == u) (pref ++ [s])
      = List.filter (fun e => e.user_name == u) pref := by
  rw [List.filter_append, filter_single]
  have hb : (s.user_name == u) = false := by
    simp only [beq_eq_false_iff_ne, ne_eq]
    exact hne
  simp [hb]

lemma insertGrouped_spec (pref : List Standup) (s : Standup) :
    ∀ us : List String, us.Nodup →
      insertGrouped (us.map (fun u => (u, pref.filter (fun e => e.user_name == u)))) s
      = if s.user_name ∈ us
        then us.map (fun u => (u, (pref ++ [s]).filter (fun e => e.user_name == u)))
        else us.map (fun u => (u, pref.filter (fun e => e.user_name == u)))
             ++ [(s.user_name, [s])] := by
  intro us
  induction us with
  | nil =>
    intro _
    simp [insertGrouped]
  | cons u0 us ih =>
    intro hnd
    have hnd0 : u0 ∉ us := (List.nodup_cons.mp hnd).1
    have hndr : us.Nodup := (List.nodup_cons.mp hnd).2
    by_cases h0 : u0 = s.user_name
    · have hmem : s.user_name ∈ u0 :: us := h0 ▸ List.mem_cons_self u0 us
      rw [if_pos hmem]
      simp only [List.map_cons, insertGrouped, if_pos h0]
      congr 1
      · congr 1
        rw [List.filter_append]
        congr 1
        have hb : (s.user_name == u0) = true := beq_iff_eq.mpr h0.symm
        rw [filter_single]
        simp [hb]
      · apply List.map_congr_left
        intro u hu
        have hne : s.user_name ≠ u := by
          intro hx
          exact hnd0 (by rw [h0, hx]; exact hu)
        rw [filter_append_single_eq hne]
    · simp only [List.map_cons, insertGrouped, if_neg h0]
      rw [ih hndr]
      by_cases hmem : s.user_name ∈ us
      · rw [if_pos hmem, if_pos (List.mem_cons_of_mem _ hmem)]
        have hne : s.user_name ≠ u0 := fun hx => h0 hx.symm
        rw [filter_append_single_eq hne]
      · have hnm : s.user_name ∉ u0 :: us := by
          intro hx
          rcases List.mem_cons.mp hx with hx | hx
          · exact h0 hx.symm
          · exact hmem hx
        rw [if_neg hmem, if_neg hnm]
        simp only [List.map_cons, List.cons_append]

lemma groupByUser_eq (l : List Standup) : groupByUser l = canonGroups l := by
  induction l using List.reverseRecOn with
  | nil => rfl
  | append_singleton l s ih =>
    unfold groupByUser at ih ⊢
    rw [List.foldl_append, List.foldl_cons, List.foldl_nil, ih]
    unfold canonGroups usersOf
    rw [insertGrouped_spec l s _ (nodup_firstOccs _)]
    have hmap : (l ++ [s]).map (fun e => e.user_name) = l.map (fun e => e.user_name) ++ [s.user_name] := by
      simp
    rw [hmap, firstOccs_append_singleton]
    have hmem_iff : s.user_name ∈ firstOccs (l.map (fun e => e.user_name)) ↔
        s.user_name ∈ l.map (fun e => e.user_name) := mem_firstOccs
    by_cases hmem : s.user_name ∈ l.map (fun e => e.user_name)
    · rw [if_pos (hmem_iff.mpr hmem), if_pos hmem, List.append_nil]
    · rw [if_neg (fun hx => hmem (hmem_iff.mp hx)), if_neg hmem, List.map_append]
      congr 1
      · apply List.map_congr_left
        intro u hu
        have hne : s.user_name ≠ u := by
          intro hx
          exact hmem (hx ▸ (mem_firstOccs.mp hu))
        rw [filter_append_single_eq hne]
      · simp only [List.map_cons, List.map_nil]
        congr 2
        rw [List.filter_append]
        have h1 : List.filter (fun e => e.user_name == s.user_name) l = [] := by
          rw [List.filter_eq_nil_iff]
          intro e he
          simp only [beq_iff_eq]
          intro hx
          exact hmem (hx ▸ List.mem_map_of_mem (fun x => x.user_name) he)
        have h2 : (s.user_name == s.user_name) = true := beq_iff_eq.mpr rfl
        rw [h1, List.nil_append, filter_single]
        simp [h2]

/-! Last-element and maximality lemmas. -/

lemma mem_of_getLast_eq {α : Type} : ∀ {l : List α} {b : α}, l.getLast? = some b → b ∈ l := by
  intro l
  induction l with
  | nil =>
    intro b h
    simp at h
  | cons a rest ih =>
    intro b h
    cases rest with
    | nil =>
      rw [List.getLast?_singleton] at h
      rw [Option.some_inj.mp h]
      exact List.mem_singleton_self b
    | cons c cs =>
      rw [List.getLast?_cons_cons] at h
      exact List.mem_cons_of_mem _ (ih h)

lemma pairwise_ge_getLast {α : Type} {R : α → α → Prop} :
    ∀ {l : List α} {b : α}, l.Pairwise R → l.getLast? = some b →
      ∀ a ∈ l, a = b ∨ R a b := by
  intro l
  induction l with
  | nil =>
    intro b _ h
    simp at h
  | cons x rest ih =>
    intro b hp hl a ha
    cases rest with
    | nil =>
      rw [List.getLast?_singleton] at hl
      rcases List.mem_singleton.mp ha with rfl
      exact Or.inl (Option.some_inj.mp hl)
    | cons c cs =>
      rw [List.getLast?_cons_cons] at hl
      have hbmem : b ∈ c :: cs := mem_of_getLast_eq hl
      rcases List.mem_cons.mp ha with rfl | ha2
      · exact Or.inr ((List.pairwise_cons.mp hp).1 b hbmem)
      · exact ih (List.pairwise_cons.mp hp).2 hl a ha2

lemma foldl_tsMax_mem : ∀ (ts : List Timestamp) (t : Timestamp),
    ts.foldl tsMax t ∈ t :: ts := by
  intro ts
  induction ts with
  | nil =>
    intro t
    simp
  | cons h rest ih =>
    intro t
    rw [List.foldl_cons]
    rcases tsMax_cases t h with hc | hc
    · rcases List.mem_cons.mp (ih (tsMax t h)) with hm | hm
      · rw [hm, hc]
        exact List.mem_cons_self _ _
      · exact List.mem_cons_of_mem _ (List.mem_cons_of_mem _ hm)
    · rcases List.mem_cons.mp (ih (tsMax t h)) with hm | hm
      · rw [hm, hc]
        exact List.mem_cons_of_mem _ (List.mem_cons_self _ _)
      · exact List.mem_cons_of_mem _ (List.mem_cons_of_mem _ hm)

lemma foldl_tsMax_ge : ∀ (ts : List Timestamp) (t : Timestamp),
    ∀ x ∈ t :: ts, tsLeP x (ts.foldl tsMax t) := by
  intro ts
  induction ts with
  | nil =>
    intro t x hx
    rcases List.mem_singleton.mp hx with rfl
    exact tsLeP_refl x
  | cons h rest ih =>
    intro t x hx
    rw [List.foldl_cons]
    rcases List.mem_cons.mp hx with rfl | hx2
    · exact tsLeP_trans (tsMax_left x h) (ih (tsMax x h) _ (List.mem_cons_self _ _))
    · rcases List.mem_cons.mp hx2 with rfl | hx3
      · exact tsLeP_trans (tsMax_right t x) (ih (tsMax t x) _ (List.mem_cons_self _ _))
      · exact ih (tsMax t h) x (List.mem_cons_of_mem _ hx3)

/-! Uniqueness lemmas: filtering the flat-mapped groups (or the filter-mapped
group-by rows) of a single user out of the whole risk list. -/

lemma filter_flatMap_of_unique {α : Type} {β : Type} [DecidableEq α]
    (g : α → List β) (p : β → Bool) (a : α) :
    ∀ L : List α, L.Nodup → a ∈ L →
      (∀ b ∈ L, b ≠ a → ∀ r ∈ g b, p r = false) →
      (L.flatMap g).filter p = (g a).filter p := by
  intro L
  induction L with
  | nil =>
    intro _ ha
    simp at ha
  | cons c t ih =>
    intro hnd ha hothers
    rw [List.flatMap_cons, List.filter_append]
    by_cases hca : c = a
    · subst hca
      have hnot : (t.flatMap g).filter p = [] := by
        rw [List.filter_eq_nil_iff]
        intro r hr
        rcases List.mem_flatMap.mp hr with ⟨b, hb, hrb⟩
        have hbc : b ≠ c := by
          intro hx
          exact (List.nodup_cons.mp hnd).1 (hx ▸ hb)
        simp [hothers b (List.mem_cons_of_mem _ hb) hbc r hrb]
      rw [hnot, List.append_nil]
    · have hat : a ∈ t := by
        rcases List.mem_cons.mp ha with hx | hx
        · exact absurd hx.symm hca
        · exact hx
      have hc : (g c).filter p = [] := by
        rw [List.filter_eq_nil_iff]
        intro r hr
        simp [hothers c (List.mem_cons_self _ _) hca r hr]
      rw [hc, List.nil_append]
      exact ih (List.nodup_cons.mp hnd).2 hat
        (fun b hb hba r hr => hothers b (List.mem_cons_of_mem _ hb) hba r hr)

lemma filter_flatMap_of_none {α : Type} {β : Type}
    (g : α → List β) (p : β → Bool) (L : List α)
    (hall : ∀ b ∈ L, ∀ r ∈ g b, p r = false) :
    (L.flatMap g).filter p = [] := by
  rw [List.filter_eq_nil_iff]
  intro r hr
  rcases List.mem_flatMap.mp hr with ⟨b, hb, hrb⟩
  simp [hall b hb r hrb]

lemma filter_filterMap_of_unique {α : Type} {β : Type} [DecidableEq α]
    (fn : α → Option β) (p : β → Bool) (a : α) :
    ∀ L : List α, L.Nodup → a ∈ L →
      (∀ b ∈ L, b ≠ a → ∀ r, fn b = some r → p r = false) →
      (∀ r, fn a = some r → p r = true) →
      (L.filterMap fn).filter p = (fn a).toList := by
  intro L
  induction L with
  | nil =>
    intro _ ha
    simp at ha
  | cons c t ih =>
    intro hnd ha hothers hself
    rw [List.filterMap_cons]
    by_cases hca : c = a
    · subst hca
      have hnot : (t.filterMap fn).filter p = [] := by
        rw [List.filter_eq_nil_iff]
        intro r hr
        rcases List.mem_filterMap.mp hr with ⟨b, hb, hrb⟩
        have hbc : b ≠ c := by
          intro hx
          exact (List.nodup_cons.mp hnd).1 (hx ▸ hb)
        simp [hothers b (List.mem_cons_of_mem _ hb) hbc r hrb]
      rcases hfn : fn c with _ | r
      · rw [hnot]
        simp [hfn]
      · rw [List.filter_cons_of_pos (hself r hfn), hnot]
        simp [hfn]
    · have hat : a ∈ t := by
        rcases List.mem_cons.mp ha with hx | hx
        · exact absurd hx.symm hca
        · exact hx
      have htail := ih (List.nodup_cons.mp hnd).2 hat
        (fun b hb hba r hr => hothers b (List.mem_cons_of_mem _ hb) hba r hr) hself
      rcases hfn : fn c with _ | r
      · exact htail
      · have hpr : ¬ p r = true := by
          simp [hothers c (List.mem_cons_self _ _) hca r hfn]
        rw [List.filter_cons_of_neg hpr]
        exact htail

/-! Characterization of the per-user stale/repeated findings. -/

lemma staleRepeatedForUser_eq_some {today : Int} {u : String} {es : List Standup}
    {te ye : Standup}
    (hT : lastOnDate es today = some te) (hY : lastOnDate es (today - 1) = some ye) :
    staleRepeatedForUser today u es =
      (if normText te.today = normText ye.today then
        [⟨u, "Stale Task", staleDesc (today - 1) today te.today⟩]
       else []) ++
      (if normBlock te.blockers ≠ "" ∧ normBlock ye.blockers ≠ "" ∧
          normBlock te.blockers = normBlock ye.blockers ∧
          normBlock te.blockers ∉ noBlockerVals then
        [⟨u, "Repeated Blocker", repeatDesc (today - 1) today te.blockers⟩]
       else []) := by
  unfold staleRepeatedForUser
  rw [hT, hY]

lemma staleRepeatedForUser_eq_nil_left {today : Int} {u : String} {es : List Standup}
    (hT : lastOnDate es today = none) :
    staleRepeatedForUser today u es = [] := by
  unfold staleRepeatedForUser
  rw [hT]

lemma staleRepeatedForUser_eq_nil_right {today : Int} {u : String} {es : List Standup}
    {te : Standup}
    (hT : lastOnDate es today = some te) (hY : lastOnDate es (today - 1) = none) :
    staleRepeatedForUser today u es = [] := by
  unfold staleRepeatedForUser
  rw [hT, hY]

lemma staleRepeatedForUser_user_type {today : Int} {u : String} {es : List Standup}
    {r : Risk} (h : r ∈ staleRepeatedForUser today u es) :
    r.user = u ∧ (r.type = "Stale Task" ∨ r.type = "Repeated Blocker") := by
  rcases hT : lastOnDate es today with _ | te
  · rw [staleRepeatedForUser_eq_nil_left hT] at h
    simp at h
  · rcases hY : lastOnDate es (today - 1) with _ | ye
    · rw [staleRepeatedForUser_eq_nil_right hT hY] at h
      simp at h
    · rw [staleRepeatedForUser_eq_some hT hY] at h
      rcases List.mem_append.mp h with h2 | h2
      · by_cases hc : normText te.today = normText ye.today
        · rw [if_pos hc] at h2
          rcases List.mem_singleton.mp h2 with rfl
          exact ⟨rfl, Or.inl rfl⟩
        · rw [if_neg hc] at h2
          simp at h2
      · by_cases hc : normBlock te.blockers ≠ "" ∧ normBlock ye.blockers ≠ "" ∧
            normBlock te.blockers = normBlock ye.blockers ∧
            normBlock te.blockers ∉ noBlockerVals
        · rw [if_pos hc] at h2
          rcases List.mem_singleton.mp h2 with rfl
          exact ⟨rfl, Or.inr rfl⟩
        · rw [if_neg hc] at h2
          simp at h2

lemma staleFor_pair {today : Int} {u : String} {es : List Standup} {te ye : Standup}
    (hT : lastOnDate es today = some te) (hY : lastOnDate es (today - 1) = some ye) :
    staleFor (staleRepeatedForUser today u es) u
      = if normText te.today = normText ye.today then
          [⟨u, "Stale Task", staleDesc (today - 1) today te.today⟩]
        else [] := by
  unfold staleFor
  rw [staleRepeatedForUser_eq_some hT hY, List.filter_append]
  by_cases hc : normText te.today = normText ye.today
  · rw [if_pos hc]
    by_cases hc2 : normBlock te.blockers ≠ "" ∧ normBlock ye.blockers ≠ "" ∧
        normBlock te.blockers = normBlock ye.blockers ∧
        normBlock te.blockers ∉ noBlockerVals
    · rw [if_pos hc2]
      simp [List.filter_singleton]
    · rw [if_neg hc2]
      simp [List.filter_singleton]
  · rw [if_neg hc]
    by_cases hc2 : normBlock te.blockers ≠ "" ∧ normBlock ye.blockers ≠ "" ∧
        normBlock te.blockers = normBlock ye.blockers ∧
        normBlock te.blockers ∉ noBlockerVals
    · rw [if_pos hc2]
      simp [List.filter_singleton]
    · rw [if_neg hc2]
      simp [List.filter_singleton]

lemma repeatedFor_pair {today : Int} {u : String} {es : List Standup} {te ye : Standup}
    (hT : lastOnDate es today = some te) (hY : lastOnDate es (today - 1) = some ye) :
    repeatedFor (staleRepeatedForUser today u es) u
      = if normBlock te.blockers ≠ "" ∧ normBlock ye.blockers ≠ "" ∧
            normBlock te.blockers = normBlock ye.blockers ∧
            normBlock te.blockers ∉ noBlockerVals then
          [⟨u, "Repeated Blocker", repeatDesc (today - 1) today te.blockers⟩]
        else [] := by
  unfold repeatedFor
  rw [staleRepeatedForUser_eq_some hT hY, List.filter_append]
  by_cases hc2 : normBlock te.blockers ≠ "" ∧ normBlock ye.blockers ≠ "" ∧
      normBlock te.blockers = normBlock ye.blockers ∧
      normBlock te.blockers ∉ noBlockerVals
  · rw [if_pos hc2]
    by_cases hc : normText te.today = normText ye.today
    · rw [if_pos hc]
      simp [List.filter_singleton]
    · rw [if_neg hc]
      simp [List.filter_singleton]
  · rw [if_neg hc2]
    by_cases hc : normText te.today = normText ye.today
    · rw [if_pos hc]
      simp [List.filter_singleton]
    · rw [if_neg hc]
      simp [List.filter_singleton]

/-! Assembly lemmas for the risk report. -/

lemma get_risk_report_decomp (db : List Standup) (t a dm : Int) :
    get_risk_report db t a dm
      = (groupByUser (sortedWindow db t a)).flatMap
          (fun g => staleRepeatedForUser a g.1 g.2)
        ++ missingRisks (teamHistory db t) a dm := rfl

lemma dashboardPairRisks_eq : @dashboardPairRisks = @staleRepeatedForUser := rfl

lemma dashboardRisks_decomp (db : List Standup) (t a : Int) :
    dashboardRisks db t a
      = (groupByUser (sortedWindow db t a)).flatMap
          (fun g => staleRepeatedForUser a g.1 g.2) := by
  unfold dashboardRisks
  rw [dashboardPairRisks_eq]

lemma canonGroups_keys (w : List Standup) :
    (canonGroups w).map Prod.fst = usersOf w := by
  unfold canonGroups
  rw [List.map_map]
  have hcomp : (Prod.fst ∘ fun u => (u, w.filter (fun s => s.user_name == u))) = id := rfl
  rw [hcomp, List.map_id]

lemma canonGroups_nodup (w : List Standup) : (canonGroups w).Nodup :=
  List.Nodup.of_map Prod.fst (by rw [canonGroups_keys]; exact nodup_firstOccs _)

lemma mem_canonGroups_of_user {w : List Standup} {u : String} (hu : u ∈ usersOf w) :
    (u, w.filter (fun s => s.user_name == u)) ∈ canonGroups w := by
  unfold canonGroups
  exact List.mem_map_of_mem _ hu

lemma userRisks_filter_of_mem {w : List Standup} {asOf : Int} {u : String} {p : Risk → Bool}
    (hp : ∀ r : Risk, p r = true → r.user = u) (hu : u ∈ usersOf w) :
    ((canonGroups w).flatMap (fun g => staleRepeatedForUser asOf g.1 g.2)).filter p
      = (staleRepeatedForUser asOf u (w.filter (fun s => s.user_name == u))).filter p := by
  have h := filter_flatMap_of_unique (fun g : String × List Standup =>
      staleRepeatedForUser asOf g.1 g.2) p (u, w.filter (fun s => s.user_name == u))
    (canonGroups w) (canonGroups_nodup w) (mem_canonGroups_of_user hu) ?_
  · exact h
  · intro b hb hba r hr
    rcases hpr : p r with _ | _
    · rfl
    · exfalso
      apply hba
      have huser : r.user = b.1 := (staleRepeatedForUser_user_type hr).1
      have h2 : b.1 = u := huser.symm.trans (hp r hpr)
      rcases List.mem_map.mp hb with ⟨v, hv, hbeq⟩
      have hb2 : b.2 = w.filter (fun s => s.user_name == b.1) := by
        rw [← hbeq]
      have heta : b = (b.1, b.2) := rfl
      rw [heta, hb2, h2]

lemma userRisks_filter_of_not {w : List Standup} {asOf : Int} {u : String} {p : Risk → Bool}
    (hp : ∀ r : Risk, p r = true → r.user = u) (hu : u ∉ usersOf w) :
    ((canonGroups w).flatMap (fun g => staleRepeatedForUser asOf g.1 g.2)).filter p = [] := by
  apply filter_flatMap_of_none
  intro b hb r hr
  rcases hpr : p r with _ | _
  · rfl
  · exfalso
    apply hu
    have huser : r.user = b.1 := (staleRepeatedForUser_user_type hr).1
    have h2 : b.1 = u := huser.symm.trans (hp r hpr)
    have h1 : b.1 ∈ usersOf w := by
      rw [← canonGroups_keys w]
      exact List.mem_map_of_mem Prod.fst hb
    rw [← h2]
    exact h1

/-! Window and per-user selection lemmas. -/

lemma sortedWindow_pairwise (db : List Standup) (t a : Int) :
    (sortedWindow db t a).Pairwise entryLeP :=
  List.sorted_insertionSort entryLeP _

lemma sortedWindow_perm (db : List Standup) (t a : Int) :
    (sortedWindow db t a).Perm
      (db.filter (fun s => s.team_id == t && decide (a - 7 ≤ s.created_at.day))) :=
  List.perm_insertionSort entryLeP _

lemma group_pairwise_ts (db : List Standup) (t a : Int) (u : String) :
    ((sortedWindow db t a).filter (fun s => s.user_name == u)).Pairwise
      (fun x y => tsLeP x.created_at y.created_at) := by
  have h1 : ((sortedWindow db t a).filter (fun s => s.user_name == u)).Pairwise entryLeP :=
    List.Pairwise.sublist (List.filter_sublist _) (sortedWindow_pairwise db t a)
  refine List.Pairwise.imp_of_mem ?_ h1
  intro x y hx hy hxy
  have hxu : x.user_name = u := beq_iff_eq.mp (List.mem_filter.mp hx).2
  have hyu : y.user_name = u := beq_iff_eq.mp (List.mem_filter.mp hy).2
  rcases hxy with h | ⟨_, h⟩
  · exfalso
    rw [hxu, hyu] at h
    exact userLt_irrefl u h
  · exact h

lemma groupDay_perm (db : List Standup) (t a : Int) (u : String) (d : Int) :
    (((sortedWindow db t a).filter (fun s => s.user_name == u)).filter
        (fun e => e.created_at.day == d)).Perm (userDayEntries db t a u d) := by
  rw [List.filter_filter]
  unfold userDayEntries
  have hperm := (sortedWindow_perm db t a).filter
    (fun s => (s.created_at.day == d) && (s.user_name == u))
  have hcong : (db.filter (fun s => s.team_id == t && decide (a - 7 ≤ s.created_at.day))).filter
      (fun s => (s.created_at.day == d) && (s.user_name == u))
      = (db.filter (fun s => s.team_id == t && decide (a - 7 ≤ s.created_at.day))).filter
          (fun s => s.user_name == u && s.created_at.day == d) := by
    apply List.filter_congr
    intro x _
    exact Bool.and_comm _ _
  rw [hcong] at hperm
  exact hperm

lemma exists_getLast {α : Type} : ∀ (l : List α), l ≠ [] → ∃ b, l.getLast? = some b := by
  intro l
  induction l with
  | nil =>
    intro h
    exact absurd rfl h
  | cons a as ih =>
    intro _
    cases as with
    | nil => exact ⟨a, List.getLast?_singleton a⟩
    | cons c cs =>
      rcases ih (by simp) with ⟨b, hb⟩
      exact ⟨b, by rw [List.getLast?_cons_cons]; exact hb⟩

/-- The entry the risk loop compares for user u on date d is the one the
by_date dict retains: it belongs to that user's entries on that date in the
window fetch, and its created_at is maximal among them. -/
lemma selection (db : List Standup) (t a : Int) (u : String) (d : Int)
    (hne : userDayEntries db t a u d ≠ []) :
    ∃ e, lastOnDate ((sortedWindow db t a).filter (fun s => s.user_name == u)) d = some e
      ∧ e ∈ userDayEntries db t a u d
      ∧ ∀ x ∈ userDayEntries db t a u d, tsLeP x.created_at e.created_at := by
  have hperm := groupDay_perm db t a u d
  have hne2 : (((sortedWindow db t a).filter (fun s => s.user_name == u)).filter
      (fun e => e.created_at.day == d)) ≠ [] := by
    intro hx
    exact hne ((hx ▸ hperm).symm.eq_nil)
  rcases exists_getLast _ hne2 with ⟨e, he⟩
  refine ⟨e, he, hperm.mem_iff.mp (mem_of_getLast_eq he), ?_⟩
  intro x hx
  have hx2 := hperm.mem_iff.mpr hx
  have hpw : (((sortedWindow db t a).filter (fun s => s.user_name == u)).filter
      (fun e => e.created_at.day == d)).Pairwise
      (fun x y => tsLeP x.created_at y.created_at) :=
    List.Pairwise.sublist (List.filter_sublist _) (group_pairwise_ts db t a u)
  rcases pairwise_ge_getLast hpw he x hx2 with rfl | h
  · exact tsLeP_refl _
  · exact h

lemma lastOnDate_none (db : List Standup) (t a : Int) (u : String) (d : Int)
    (hne : userDayEntries db t a u d = []) :
    lastOnDate ((sortedWindow db t a).filter (fun s => s.user_name == u)) d = none := by
  have hperm := groupDay_perm db t a u d
  rw [hne] at hperm
  have hnil := hperm.eq_nil
  unfold lastOnDate
  rw [hnil]
  rfl

lemma user_mem_usersOf {db : List Standup} {t a : Int} {u : String} {d : Int}
    (hne : userDayEntries db t a u d ≠ []) :
    u ∈ usersOf (sortedWindow db t a) := by
  rcases List.exists_mem_of_ne_nil _ hne with ⟨e, he⟩
  unfold userDayEntries at he
  have h1 := List.mem_filter.mp he
  have hcond := (Bool.and_eq_true _ _).mp h1.2
  have hu : e.user_name = u := beq_iff_eq.mp hcond.1
  unfold usersOf
  rw [mem_firstOccs]
  have : e ∈ sortedWindow db t a := (sortedWindow_perm db t a).mem_iff.mpr h1.1
  rw [← hu]
  exact List.mem_map_of_mem _ this

/-! Missing-update row lemmas. -/

lemma missingRowRisk_spec {hist : List Standup} {asOf dm : Int} {b : String} {r : Risk}
    (hfn : missingRowRisk hist asOf dm b = some r) :
    r.user = b ∧ r.type = "Missing Update" := by
  unfold missingRowRisk at hfn
  split at hfn
  · rcases Option.some_inj.mp hfn with rfl
    exact ⟨rfl, rfl⟩
  · split at hfn
    · rcases Option.some_inj.mp hfn with rfl
      exact ⟨rfl, rfl⟩
    · simp at hfn

lemma missingRisks_type {hist : List Standup} {asOf dm : Int} {r : Risk}
    (hr : r ∈ missingRisks hist asOf dm) : r.type = "Missing Update" := by
  unfold missingRisks at hr
  rcases List.mem_filterMap.mp hr with ⟨b, hb, hfn⟩
  exact (missingRowRisk_spec hfn).2

lemma missingFor_rows {hist : List Standup} (asOf dm : Int) {u : String}
    (hu : u ∈ firstOccs (hist.map (fun s => s.user_name))) :
    missingFor (missingRisks hist asOf dm) u = (missingRowRisk hist asOf dm u).toList := by
  unfold missingFor missingRisks
  apply filter_filterMap_of_unique _ _ u _ (nodup_firstOccs _) hu
  · intro b hb hba r hfn
    rcases hpr : (r.user == u && r.type == "Missing Update") with _ | _
    · rfl
    · exfalso
      apply hba
      have hb1 : r.user = b := (missingRowRisk_spec hfn).1
      have hb2 : r.user = u := beq_iff_eq.mp ((Bool.and_eq_true _ _).mp hpr).1
      exact hb1.symm.trans hb2
  · intro r hfn
    have hs := missingRowRisk_spec hfn
    simp [hs.1, hs.2]

lemma missingFor_rows_not {hist : List Standup} (asOf dm : Int) {u : String}
    (hu : u ∉ firstOccs (hist.map (fun s => s.user_name))) :
    missingFor (missingRisks hist asOf dm) u = [] := by
  unfold missingFor
  rw [List.filter_eq_nil_iff]
  intro r hr
  rcases List.mem_filterMap.mp hr with ⟨b, hb, hfn⟩
  intro hpr
  apply hu
  have hb1 : r.user = b := (missingRowRisk_spec hfn).1
  have hb2 : r.user = u := beq_iff_eq.mp ((Bool.and_eq_true _ _).mp hpr).1
  rw [← hb1.symm.trans hb2]
  exact hb

lemma lastAt_spec {hist : List Standup} {u : String} {t : Timestamp}
    (h : lastAt hist u = some t) :
    t ∈ (hist.filter (fun s => s.user_name == u)).map (fun s => s.created_at)
    ∧ ∀ x ∈ (hist.filter (fun s => s.user_name == u)).map (fun s => s.created_at),
        tsLeP x t := by
  unfold lastAt at h
  rcases hl : (hist.filter (fun s => s.user_name == u)).map (fun s => s.created_at)
    with _ | ⟨t0, ts⟩ <;> rw [hl] at h
  · simp at h
  · rcases Option.some_inj.mp h with rfl
    exact ⟨hl ▸ foldl_tsMax_mem ts t0, fun x hx => foldl_tsMax_ge ts t0 x (hl ▸ hx)⟩

lemma lastAt_eq_some_of_mem {hist : List Standup} {u : String}
    (hu : u ∈ hist.map (fun s => s.user_name)) : ∃ t, lastAt hist u = some t := by
  unfold lastAt
  rcases hl : (hist.filter (fun s => s.user_name == u)).map (fun s => s.created_at)
    with _ | ⟨t0, ts⟩
  · exfalso
    rcases List.mem_map.mp hu with ⟨s, hs, hsu⟩
    have hmem : s ∈ hist.filter (fun x => x.user_name == u) :=
      List.mem_filter.mpr ⟨hs, beq_iff_eq.mpr hsu⟩
    have hmem2 : s.created_at ∈ (hist.filter (fun x => x.user_name == u)).map
        (fun s => s.created_at) := List.mem_map_of_mem _ hmem
    rw [hl] at hmem2
    simp at hmem2
  · rw [hl]
    exact ⟨ts.foldl tsMax t0, rfl⟩

/-! Filtered views of the full risk report. -/

lemma pred_user {u ty : String} :
    ∀ r : Risk, (r.user == u && r.type == ty) = true → r.user = u :=
  fun _ h => beq_iff_eq.mp ((Bool.and_eq_true _ _).mp h).1

lemma staleFor_report (db : List Standup) (t a dm : Int) (u : String) :
    staleFor (get_risk_report db t a dm) u
      = staleFor ((canonGroups (sortedWindow db t a)).flatMap
          (fun g => staleRepeatedForUser a g.1 g.2)) u := by
  unfold staleFor
  rw [get_risk_report_decomp, groupByUser_eq, List.filter_append]
  have hm : (missingRisks (teamHistory db t) a dm).filter
      (fun r => r.user == u && r.type == "Stale Task") = [] := by
    rw [List.filter_eq_nil_iff]
    intro r hr hpr
    have h2 := beq_iff_eq.mp ((Bool.and_eq_true _ _).mp hpr).2
    rw [missingRisks_type hr] at h2
    exact absurd h2 (by decide)
  rw [hm, List.append_nil]

lemma repeatedFor_report (db : List Standup) (t a dm : Int) (u : String) :
    repeatedFor (get_risk_report db t a dm) u
      = repeatedFor ((canonGroups (sortedWindow db t a)).flatMap
          (fun g => staleRepeatedForUser a g.1 g.2)) u := by
  unfold repeatedFor
  rw [get_risk_report_decomp, groupByUser_eq, List.filter_append]
  have hm : (missingRisks (teamHistory db t) a dm).filter
      (fun r => r.user == u && r.type == "Repeated Blocker") = [] := by
    rw [List.filter_eq_nil_iff]
    intro r hr hpr
    have h2 := beq_iff_eq.mp ((Bool.and_eq_true _ _).mp hpr).2
    rw [missingRisks_type hr] at h2
    exact absurd h2 (by decide)
  rw [hm, List.append_nil]

lemma missingFor_report (db : List Standup) (t a dm : Int) (u : String) :
    missingFor (get_risk_report db t a dm) u
      = missingFor (missingRisks (teamHistory db t) a dm) u := by
  unfold missingFor
  rw [get_risk_report_decomp, groupByUser_eq, List.filter_append]
  have hs : ((canonGroups (sortedWindow db t a)).flatMap
      (fun g => staleRepeatedForUser a g.1 g.2)).filter
      (fun r => r.user == u && r.type == "Missing Update") = [] := by
    rw [List.filter_eq_nil_iff]
    intro r hr hpr
    rcases List.mem_flatMap.mp hr with ⟨g, hg, hrg⟩
    have h2 := beq_iff_eq.mp ((Bool.and_eq_true _ _).mp hpr).2
    rcases (staleRepeatedForUser_user_type hrg).2 with ht | ht <;> rw [ht] at h2
    · exact absurd h2 (by decide)
    · exact absurd h2 (by decide)
  rw [hs, List.nil_append]

lemma staleFor_report_user (db : List Standup) (t a dm : Int) (u : String) :
    staleFor (get_risk_report db t a dm) u =
      if u ∈ usersOf (sortedWindow db t a)
      then staleFor (staleRepeatedForUser a u
          ((sortedWindow db t a).filter (fun s => s.user_name == u))) u
      else [] := by
  rw [staleFor_report]
  by_cases hu : u ∈ usersOf (sortedWindow db t a)
  · rw [if_pos hu]
    exact userRisks_filter_of_mem pred_user hu
  · rw [if_neg hu]
    exact userRisks_filter_of_not pred_user hu

lemma repeatedFor_report_user (db : List Standup) (t a dm : Int) (u : String) :
    repeatedFor (get_risk_report db t a dm) u =
      if u ∈ usersOf (sortedWindow db t a)
      then repeatedFor (staleRepeatedForUser a u
          ((sortedWindow db t a).filter (fun s => s.user_name == u))) u
      else [] := by
  rw [repeatedFor_report]
  by_cases hu : u ∈ usersOf (sortedWindow db t a)
  · rw [if_pos hu]
    exact userRisks_filter_of_mem pred_user hu
  · rw [if_neg hu]
    exact userRisks_filter_of_not pred_user hu

lemma srfu_empty_of_missing_day {db : List Standup} {t a : Int} {u : String}
    (h : userDayEntries db t a u a = [] ∨ userDayEntries db t a u (a - 1) = []) :
    staleRepeatedForUser a u
      ((sortedWindow db t a).filter (fun s => s.user_name == u)) = [] := by
  rcases h with h | h
  · exact staleRepeatedForUser_eq_nil_left (lastOnDate_none db t a u a h)
  · rcases hT : lastOnDate ((sortedWindow db t a).filter (fun s => s.user_name == u)) a
      with _ | te
    · exact staleRepeatedForUser_eq_nil_left hT
    · exact staleRepeatedForUser_eq_nil_right hT (lastOnDate_none db t a u (a - 1) h)

/-! Remaining helpers for the claim theorems. -/

lemma blocker_cond_iff (tb yb : String) :
    (tb ≠ "" ∧ yb ≠ "" ∧ tb = yb ∧ tb ∉ noBlockerVals) ↔
      (tb = yb ∧ tb ∉ ("" :: noBlockerVals)) := by
  constructor
  · rintro ⟨h1, _, h3, h4⟩
    refine ⟨h3, ?_⟩
    intro hx
    rcases List.mem_cons.mp hx with hx | hx
    · exact h1 hx
    · exact h4 hx
  · rintro ⟨h3, h4⟩
    have h1 : tb ≠ "" := by
      intro hx
      exact h4 (by rw [hx]; exact List.mem_cons_self _ _)
    exact ⟨h1, h3 ▸ h1, h3, fun hx => h4 (List.mem_cons_of_mem _ hx)⟩

lemma missingRowRisk_eq_some {hist : List Standup} {asOf dm : Int} {u : String}
    {t : Timestamp} (h : lastAt hist u = some t) :
    missingRowRisk hist asOf dm u
      = if t.day < asOf - (dm - 1) then
          some ⟨u, "Missing Update", missingDesc (some t) dm⟩
        else none := by
  unfold missingRowRisk
  rw [h]

lemma srfu_filter_le_one {today : Int} {u v ty : String} {es : List Standup} :
    ((staleRepeatedForUser today u es).filter
        (fun r => r.user == v && r.type == ty)).length ≤ 1 := by
  rcases hT : lastOnDate es today with _ | te
  · rw [staleRepeatedForUser_eq_nil_left hT]
    simp
  · rcases hY : lastOnDate es (today - 1) with _ | ye
    · rw [staleRepeatedForUser_eq_nil_right hT hY]
      simp
    · rw [staleRepeatedForUser_eq_some hT hY, List.filter_append, List.length_append]
      by_cases hty : ty = "Stale Task"
      · have h2 : ((if normBlock te.blockers ≠ "" ∧ normBlock ye.blockers ≠ "" ∧
            normBlock te.blockers = normBlock ye.blockers ∧
            normBlock te.blockers ∉ noBlockerVals then
              [(⟨u, "Repeated Blocker", repeatDesc (today - 1) today te.blockers⟩ : Risk)]
            else []).filter (fun r => r.user == v && r.type == ty)) = [] := by
          rw [List.filter_eq_nil_iff]
          intro r hr hpr
          by_cases hc2 : normBlock te.blockers ≠ "" ∧ normBlock ye.blockers ≠ "" ∧
              normBlock te.blockers = normBlock ye.blockers ∧
              normBlock te.blockers ∉ noBlockerVals
          · rw [if_pos hc2] at hr
            rcases List.mem_singleton.mp hr with rfl
            have h3 : ("Repeated Blocker" : String) = ty :=
              beq_iff_eq.mp ((Bool.and_eq_true _ _).mp hpr).2
            rw [hty] at h3
            exact absurd h3 (by decide)
          · rw [if_neg hc2] at hr
            simp at hr
        rw [h2]
        by_cases hc1 : normText te.today = normText ye.today
        · rw [if_pos hc1]
          simpa using List.length_filter_le
            (fun r => r.user == v && r.type == ty)
            [(⟨u, "Stale Task", staleDesc (today - 1) today te.today⟩ : Risk)]
        · rw [if_neg hc1]
          simp
      · have h1 : ((if normText te.today = normText ye.today then
            [(⟨u, "Stale Task", staleDesc (today - 1) today te.today⟩ : Risk)]
            else []).filter (fun r => r.user == v && r.type == ty)) = [] := by
          rw [List.filter_eq_nil_iff]
          intro r hr hpr
          by_cases hc1 : normText te.today = normText ye.today
          · rw [if_pos hc1] at hr
            rcases List.mem_singleton.mp hr with rfl
            have h3 : ("Stale Task" : String) = ty :=
              beq_iff_eq.mp ((Bool.and_eq_true _ _).mp hpr).2
            exact hty h3.symm
          · rw [if_neg hc1] at hr
            simp at hr
        rw [h1]
        by_cases hc2 : normBlock te.blockers ≠ "" ∧ normBlock ye.blockers ≠ "" ∧
            normBlock te.blockers = normBlock ye.blockers ∧
            normBlock te.blockers ∉ noBlockerVals
        · rw [if_pos hc2]
          simpa using List.length_filter_le
            (fun r => r.user == v && r.type == ty)
            [(⟨u, "Repeated Blocker", repeatDesc (today - 1) today te.blockers⟩ : Risk)]
        · rw [if_neg hc2]
          simp

/-- C4: within the 7-day window fetch, a user with entries on both asOfDate
and asOfDate - 1 gets exactly one Stale Task finding iff the trimmed,
lowercased today texts of the two compared entries are equal, where each
day's compared entry is one of that day's entries carrying the maximal
created_at; a user lacking either day's entry gets no Stale Task finding. -/
theorem C4_stale_task (db : List Standup) (team_id asOf days_missing : Int) (u : String) :
    ((userDayEntries db team_id asOf u asOf = [] ∨
        userDayEntries db team_id asOf u (asOf - 1) = []) →
      staleFor (get_risk_report db team_id asOf days_missing) u = [])
    ∧ (userDayEntries db team_id asOf u asOf ≠ [] →
       userDayEntries db team_id asOf u (asOf - 1) ≠ [] →
       ∃ te ∈ userDayEntries db team_id asOf u asOf,
       ∃ ye ∈ userDayEntries db team_id asOf u (asOf - 1),
         (∀ e ∈ userDayEntries db team_id asOf u asOf,
            tsLeP e.created_at te.created_at) ∧
         (∀ e ∈ userDayEntries db team_id asOf u (asOf - 1),
            tsLeP e.created_at ye.created_at) ∧
         (staleFor (get_risk_report db team_id asOf days_missing) u).length
           = (if normText te.today = normText ye.today then 1 else 0)) := by
  constructor
  · intro h0
    rw [staleFor_report_user]
    by_cases hu : u ∈ usersOf (sortedWindow db team_id asOf)
    · rw [if_pos hu, srfu_empty_of_missing_day h0]
      rfl
    · rw [if_neg hu]
  · intro hT hY
    obtain ⟨te, hTe, hTmem, hTmax⟩ := selection db team_id asOf u asOf hT
    obtain ⟨ye, hYe, hYmem, hYmax⟩ := selection db team_id asOf u (asOf - 1) hY
    refine ⟨te, hTmem, ye, hYmem, hTmax, hYmax, ?_⟩
    rw [staleFor_report_user, if_pos (user_mem_usersOf hT), staleFor_pair hTe hYe]
    by_cases hc : normText te.today = normText ye.today
    · rw [if_pos hc, if_pos hc]
      rfl
    · rw [if_neg hc, if_neg hc]
      rfl

/-- C5: a user with entries on both asOfDate and asOfDate - 1 gets exactly
one Repeated Blocker finding iff the two compared entries' normalized blocker
texts are equal and that text is outside the no-blocker class (empty, none,
no blockers, n/a, na); again each day's compared entry carries the maximal
created_at of that user's entries on that date. -/
theorem C5_repeated_blocker (db : List Standup) (team_id asOf days_missing : Int)
    (u : String)
    (hT : userDayEntries db team_id asOf u asOf ≠ [])
    (hY : userDayEntries db team_id asOf u (asOf - 1) ≠ []) :
    ∃ te ∈ userDayEntries db team_id asOf u asOf,
    ∃ ye ∈ userDayEntries db team_id asOf u (asOf - 1),
      (∀ e ∈ userDayEntries db team_id asOf u asOf,
         tsLeP e.created_at te.created_at) ∧
      (∀ e ∈ userDayEntries db team_id asOf u (asOf - 1),
         tsLeP e.created_at ye.created_at) ∧
      (repeatedFor (get_risk_report db team_id asOf days_missing) u).length
        = (if normBlock te.blockers = normBlock ye.blockers ∧
              normBlock te.blockers ∉ ("" :: noBlockerVals) then 1 else 0) := by
  obtain ⟨te, hTe, hTmem, hTmax⟩ := selection db team_id asOf u asOf hT
  obtain ⟨ye, hYe, hYmem, hYmax⟩ := selection db team_id asOf u (asOf - 1) hY
  refine ⟨te, hTmem, ye, hYmem, hTmax, hYmax, ?_⟩
  rw [repeatedFor_report_user, if_pos (user_mem_usersOf hT), repeatedFor_pair hTe hYe]
  by_cases hc : normBlock te.blockers = normBlock ye.blockers ∧
      normBlock te.blockers ∉ ("" :: noBlockerVals)
  · rw [if_pos ((blocker_cond_iff _ _).mpr hc), if_pos hc]
    rfl
  · rw [if_neg (fun hx => hc ((blocker_cond_iff _ _).mp hx)), if_neg hc]
    rfl

/-- C6: a user appearing in the team's history gets exactly one Missing
Update finding iff the calendar date of their maximal created_at over the
whole history is earlier than asOfDate - (days_missing - 1). -/
theorem C6_missing_update (db : List Standup) (team_id asOf days_missing : Int)
    (u : String) (t : Timestamp)
    (hlast : lastAt (teamHistory db team_id) u = some t) :
    (t ∈ ((teamHistory db team_id).filter (fun s => s.user_name == u)).map
        (fun s => s.created_at))
    ∧ (∀ x ∈ ((teamHistory db team_id).filter (fun s => s.user_name == u)).map
        (fun s => s.created_at), tsLeP x t)
    ∧ (missingFor (get_risk_report db team_id asOf days_missing) u).length
        = (if t.day < asOf - (days_missing - 1) then 1 else 0) := by
  have hspec := lastAt_spec hlast
  have humem : u ∈ (teamHistory db team_id).map (fun s => s.user_name) := by
    rcases List.mem_map.mp hspec.1 with ⟨s, hs, _⟩
    have hsu : s.user_name = u := beq_iff_eq.mp (List.mem_filter.mp hs).2
    rw [← hsu]
    exact List.mem_map_of_mem _ (List.mem_filter.mp hs).1
  refine ⟨hspec.1, hspec.2, ?_⟩
  rw [missingFor_report, missingFor_rows asOf days_missing (mem_firstOccs.mpr humem),
    missingRowRisk_eq_some hlast]
  by_cases hc : t.day < asOf - (days_missing - 1)
  · rw [if_pos hc, if_pos hc]
    rfl
  · rw [if_neg hc, if_neg hc]
    rfl

/-- C10: the risk report never contains two findings with the same user and
the same type: each (user, type) pair appears at most once. -/
theorem C10_at_most_one_per_user_type (db : List Standup)
    (team_id asOf days_missing : Int) (u ty : String) :
    ((get_risk_report db team_id asOf days_missing).filter
        (fun r => r.user == u && r.type == ty)).length ≤ 1 := by
  rw [get_risk_report_decomp, groupByUser_eq, List.filter_append, List.length_append]
  by_cases hty : ty = "Missing Update"
  · have hSR : ((canonGroups (sortedWindow db team_id asOf)).flatMap
        (fun g => staleRepeatedForUser asOf g.1 g.2)).filter
        (fun r => r.user == u && r.type == ty) = [] := by
      rw [List.filter_eq_nil_iff]
      intro r hr hpr
      rcases List.mem_flatMap.mp hr with ⟨g, hg, hrg⟩
      have h2 := beq_iff_eq.mp ((Bool.and_eq_true _ _).mp hpr).2
      rw [hty] at h2
      rcases (staleRepeatedForUser_user_type hrg).2 with ht | ht <;> rw [ht] at h2
      · exact absurd h2 (by decide)
      · exact absurd h2 (by decide)
    rw [hSR]
    simp only [List.length_nil, Nat.zero_add]
    subst hty
    by_cases hu : u ∈ firstOccs ((teamHistory db team_id).map (fun s => s.user_name))
    · have hrows := missingFor_rows asOf days_missing hu
      unfold missingFor at hrows
      rw [hrows]
      rcases missingRowRisk (teamHistory db team_id) asOf days_missing u with _ | r
      · simp
      · simp
    · have hrows := missingFor_rows_not asOf days_missing hu
      unfold missingFor at hrows
      rw [hrows]
      simp
  · have hM : (missingRisks (teamHistory db team_id) asOf days_missing).filter
        (fun r => r.user == u && r.type == ty) = [] := by
      rw [List.filter_eq_nil_iff]
      intro r hr hpr
      have h2 := beq_iff_eq.mp ((Bool.and_eq_true _ _).mp hpr).2
      rw [missingRisks_type hr] at h2
      exact hty h2.symm
    rw [hM]
    simp only [List.length_nil, Nat.add_zero]
    by_cases hu : u ∈ usersOf (sortedWindow db team_id asOf)
    · rw [userRisks_filter_of_mem pred_user hu]
      exact srfu_filter_le_one
    · rw [userRisks_filter_of_not pred_user hu]
      simp

/-! Submission characterization. -/

lemma submit_standup_none {teams : List Team} {store : List Standup} {standup : Standup}
    {slack : Except String Unit}
    (hf : teams.find? (fun t => t.id == some standup.team_id) = none) :
    submit_standup teams store standup slack = (store, Except.error "Team not found") := by
  unfold submit_standup
  rw [hf]

lemma submit_standup_some {teams : List Team} {store : List Standup} {standup : Standup}
    {slack : Except String Unit} {tm : Team}
    (hf : teams.find? (fun t => t.id == some standup.team_id) = some tm) :
    submit_standup teams store standup slack
      = (store ++ [standup], Except.ok "Stand-up submitted successfully") := by
  unfold submit_standup
  rw [hf]
  cases slack <;> rfl

/-- C9: submission fails iff the referenced team does not exist; on a failure
the entry store is unchanged; the outcome never depends on the chat-delivery
result, and when the team exists the entry is stored and the call succeeds. -/
theorem C9_submit_validation (teams : List Team) (store : List Standup)
    (standup : Standup) (slack slack2 : Except String Unit) :
    ((submit_standup teams store standup slack).2.isOk = true ↔
      ∃ tm ∈ teams, tm.id = some standup.team_id)
    ∧ ((submit_standup teams store standup slack).2.isOk = false →
        (submit_standup teams store standup slack).1 = store)
    ∧ submit_standup teams store standup slack = submit_standup teams store standup slack2
    ∧ ((∃ tm ∈ teams, tm.id = some standup.team_id) →
        (submit_standup teams store standup slack).1 = store ++ [standup]) := by
  rcases hf : teams.find? (fun t => t.id == some standup.team_id) with _ | tm0
  · have hno : ¬ ∃ tm ∈ teams, tm.id = some standup.team_id := by
      rintro ⟨tm, htm, hid⟩
      have h2 := List.find?_eq_none.mp hf tm htm
      rw [hid] at h2
      simp at h2
    rw [submit_standup_none hf, submit_standup_none hf]
    refine ⟨?_, fun _ => rfl, rfl, fun h => absurd h hno⟩
    constructor
    · intro h
      have h2 : (Except.error "Team not found" : Except String String).isOk = true := h
      exact absurd h2 (by decide)
    · intro h
      exact absurd h hno
  · have hyes : ∃ tm ∈ teams, tm.id = some standup.team_id :=
      ⟨tm0, List.mem_of_find?_eq_some hf, by
        have hp := List.find?_some hf
        exact beq_iff_eq.mp hp⟩
    rw [submit_standup_some hf, submit_standup_some hf]
    refine ⟨⟨fun _ => hyes, fun _ => rfl⟩, ?_, rfl, fun _ => rfl⟩
    intro h
    have h2 : (Except.ok "Stand-up submitted successfully" : Except String String).isOk
        = false := h
    exact absurd h2 (by decide)

/-- C7: when the configured generation function throws on every prompt, the
summary equals the one produced with no generation function configured: both
take the deterministic fallback path. -/
theorem C7_fallback_equivalence (standups : List Standup)
    (g : String → Except String String)
    (hne : standups ≠ []) (hfail : ∀ p, ∃ e, g p = Except.error e) :
    summarize_standups standups (some g) = summarize_standups standups none := by
  unfold summarize_standups
  rw [if_neg hne, if_neg hne]
  show (match g (promptHeader ++ String.intercalate "\n" (standups.map promptLine) ++ "\n") with
        | Except.ok r => pyStrip r
        | Except.error _ => fallbackSummary standups) = fallbackSummary standups
  rcases hfail (promptHeader ++ String.intercalate "\n" (standups.map promptLine) ++ "\n")
    with ⟨e, he⟩
  rw [he]

/-! Dedup claim. -/

lemma filterMap_map_eq {α β : Type} (fn : α → Option β) (g : β → α) :
    ∀ L : List α, (∀ u ∈ L, ∃ b, fn u = some b ∧ g b = u) →
      (L.filterMap fn).map g = L := by
  intro L
  induction L with
  | nil =>
    intro _
    rfl
  | cons c t ih =>
    intro h
    rcases h c (List.mem_cons_self _ _) with ⟨b, hb, hgb⟩
    rw [List.filterMap_cons_some hb, List.map_cons, hgb,
      ih (fun u hu => h u (List.mem_cons_of_mem _ hu))]

/-- C3 amended: the per-user dedup keeps exactly one entry per distinct user
name (keys in first-occurrence order), and for each user the kept entry is
the last entry of that user in list order - not necessarily the one with the
maximal created_at. -/
theorem C3_latest_per_user (standups : List Standup) :
    ((latestPerUser standups).map (fun s => s.user_name)
        = firstOccs (standups.map (fun s => s.user_name)))
    ∧ (firstOccs (standups.map (fun s => s.user_name))).Nodup
    ∧ (∀ u, u ∈ firstOccs (standups.map (fun s => s.user_name)) ↔
        u ∈ standups.map (fun s => s.user_name))
    ∧ (∀ s ∈ latestPerUser standups,
        (standups.filter (fun e => e.user_name == s.user_name)).getLast? = some s) := by
  refine ⟨?_, nodup_firstOccs _, fun u => mem_firstOccs, ?_⟩
  · unfold latestPerUser
    apply filterMap_map_eq
    intro u hu
    have humem : u ∈ standups.map (fun s => s.user_name) := mem_firstOccs.mp hu
    rcases List.mem_map.mp humem with ⟨s0, hs0, hs0u⟩
    have hne : standups.filter (fun s => s.user_name == u) ≠ [] := by
      intro hx
      have hmem : s0 ∈ standups.filter (fun s => s.user_name == u) :=
        List.mem_filter.mpr ⟨hs0, beq_iff_eq.mpr hs0u⟩
      rw [hx] at hmem
      simp at hmem
    rcases exists_getLast _ hne with ⟨b, hb⟩
    refine ⟨b, hb, ?_⟩
    exact beq_iff_eq.mp (List.mem_filter.mp (mem_of_getLast_eq hb)).2
  · intro s hs
    unfold latestPerUser at hs
    rcases List.mem_filterMap.mp hs with ⟨u, hu, hlast⟩
    have hsu : s.user_name = u :=
      beq_iff_eq.mp (List.mem_filter.mp (mem_of_getLast_eq hlast)).2
    rw [hsu]
    exact hlast

/-- C2 amended: the dashboard risk list equals the standalone risk report
with the Missing Update findings removed (for any threshold); the stale-task
and repeated-blocker findings of the two surfaces coincide exactly, but the
dashboard never carries missing-update findings. -/
theorem C2_dashboard_vs_report (db : List Standup) (team_id asOf days_missing : Int) :
    dashboardRisks db team_id asOf
      = (get_risk_report db team_id asOf days_missing).filter
          (fun r => !(r.type == "Missing Update")) := by
  rw [dashboardRisks_decomp, get_risk_report_decomp, List.filter_append]
  have h1 : ((groupByUser (sortedWindow db team_id asOf)).flatMap
      (fun g => staleRepeatedForUser asOf g.1 g.2)).filter
      (fun r => !(r.type == "Missing Update"))
      = (groupByUser (sortedWindow db team_id asOf)).flatMap
          (fun g => staleRepeatedForUser asOf g.1 g.2) := by
    rw [List.filter_eq_self]
    intro r hr
    rcases List.mem_flatMap.mp hr with ⟨g, hg, hrg⟩
    rcases (staleRepeatedForUser_user_type hrg).2 with ht | ht <;> rw [ht] <;> decide
  have h2 : (missingRisks (teamHistory db team_id) asOf days_missing).filter
      (fun r => !(r.type == "Missing Update")) = [] := by
    rw [List.filter_eq_nil_iff]
    intro r hr hpr
    rw [missingRisks_type hr] at hpr
    exact absurd hpr (by decide)
  rw [h1, h2, List.append_nil]

/-- C1 amended: the payload field names are snake_case: the standalone risk
payload carries exactly team_id, date, risks; the dashboard payload carries
exactly team_id, date, summary, risks, updates with update records keyed
user, yesterday, today, blockers, created_at; risk records are keyed user,
type, description and every type value is one of the space-separated strings
Stale Task, Repeated Blocker, Missing Update. -/
theorem C1_payload_contract (db : List Standup) (team_id asOf days_missing : Int)
    (client : Option (String → Except String String)) :
    (riskReportPayload db team_id asOf days_missing).keys = ["team_id", "date", "risks"]
    ∧ (get_dashboard db team_id asOf client).keys
        = ["team_id", "date", "summary", "risks", "updates"]
    ∧ (∀ s : Standup, (updateToJ s).keys
        = ["user", "yesterday", "today", "blockers", "created_at"])
    ∧ (∀ r : Risk, (riskToJ r).keys = ["user", "type", "description"])
    ∧ (∀ r ∈ get_risk_report db team_id asOf days_missing,
        r.type ∈ (["Stale Task", "Repeated Blocker", "Missing Update"] : List String))
    ∧ (∀ r ∈ dashboardRisks db team_id asOf,
        r.type ∈ (["Stale Task", "Repeated Blocker", "Missing Update"] : List String)) := by
  refine ⟨rfl, rfl, fun s => rfl, fun r => rfl, ?_, ?_⟩
  · intro r hr
    rw [get_risk_report_decomp] at hr
    rcases List.mem_append.mp hr with hr | hr
    · rcases List.mem_flatMap.mp hr with ⟨g, hg, hrg⟩
      rcases (staleRepeatedForUser_user_type hrg).2 with ht | ht <;> rw [ht] <;> decide
    · rw [missingRisks_type hr]
      decide
  · intro r hr
    rw [dashboardRisks_decomp] at hr
    rcases List.mem_flatMap.mp hr with ⟨g, hg, hrg⟩
    rcases (staleRepeatedForUser_user_type hrg).2 with ht | ht <;> rw [ht] <;> decide

/-! Fallback-template claim. -/

lemma fallbackLine_eq_amendedBlock (s : Standup) : fallbackLine s = amendedBlock s := by
  unfold fallbackLine amendedBlock
  rcases hb : s.blockers with _ | b
  · rw [if_neg]
    intro hx
    exact absurd rfl hx.1
  · by_cases hc : b ≠ "" ∧ pyLower (pyStrip b) ≠ "none"
    · have hr : some b ≠ none ∧ (some b).getD "" ≠ "" ∧
          pyLower (pyStrip ((some b).getD "")) ≠ "none" := ⟨by simp, hc.1, hc.2⟩
      simp only [if_pos hc, if_pos hr]
      rfl
    · have hr : ¬ (some b ≠ none ∧ (some b).getD "" ≠ "" ∧
          pyLower (pyStrip ((some b).getD "")) ≠ "none") := by
        intro hx
        exact hc ⟨hx.2.1, hx.2.2⟩
      simp only [if_neg hc, if_neg hr]

/-- C8 amended: the non-empty-input fallback summary is exactly the template
of per-entry blocks joined by blank lines after the fixed header, ending with
the fixed closing line, where the blocker line appears iff the blocker is
present, nonempty, and its trimmed lowercased form is not the string none. -/
theorem C8_fallback_template (standups : List Standup) (hne : standups ≠ []) :
    summarize_standups standups none = amendedFallbackTemplate standups := by
  unfold summarize_standups
  rw [if_neg hne]
  show fallbackSummary standups = amendedFallbackTemplate standups
  unfold fallbackSummary amendedFallbackTemplate
  rw [List.map_congr_left (fun s _ => fallbackLine_eq_amendedBlock s)]

/-- C1 as stated fails on the code: the produced risk type string is
Stale Task with a space, not StaleTask, and the payload keys are snake_case
(team_id, created_at), not the claimed camelCase names. -/
theorem C1_counterexample :
    (get_risk_report exC1 1 10 2).map (fun r => r.type) = ["Stale Task"]
    ∧ "Stale Task" ∉ (["StaleTask", "RepeatedBlocker", "MissingUpdate"] : List String)
    ∧ (get_dashboard exC1 1 10 none).keys = ["team_id", "date", "summary", "risks", "updates"]
    ∧ "teamId" ∉ (get_dashboard exC1 1 10 none).keys
    ∧ (updateToJ (mkSt 2 1 "alice" "planning" "fix bug" none 10 0)).keys
        = ["user", "yesterday", "today", "blockers", "created_at"]
    ∧ "createdAt" ∉ (updateToJ (mkSt 2 1 "alice" "planning" "fix bug" none 10 0)).keys := by
  exact ⟨by decide, by decide, rfl, by decide, rfl, by decide⟩

/-- C2 as stated fails on the code: with one user whose only entry is three
days old, the standalone risk report contains a Missing Update finding while
the dashboard risk list is empty, so the two lists differ as sets keyed by
(user, type). -/
theorem C2_counterexample :
    dashboardRisks exC2 1 10 = []
    ∧ (get_risk_report exC2 1 10 2).map (fun r => (r.user, r.type))
        = [("alice", "Missing Update")] := by
  exact ⟨by decide, by decide⟩

/-- C3 as stated fails on the code: when the later-created entry precedes the
earlier-created one in the fetched list, the dict comprehension keeps the
earlier-created entry (the last in list order), not the maximal-created_at
one. -/
theorem C3_counterexample :
    latestPerUser [eC3a, eC3b] = [eC3b]
    ∧ eC3b ≠ eC3a
    ∧ ¬ tsLeP eC3a.created_at eC3b.created_at := by
  exact ⟨by decide, by decide, by decide⟩

/-- C8 as stated fails on the code: an entry whose blocker is n/a (a member
of the claimed no-blocker exclusion class) still gets a blocker line in the
fallback summary, so the summary differs from the claimed template. -/
theorem C8_counterexample :
    summarize_standups [eC8] none ≠ claimFallbackTemplate [eC8]
    ∧ normBlock eC8.blockers ∈ ("" :: noBlockerVals) := by
  exact ⟨by decide, by decide⟩

/-! Witnesses instantiating the claim theorems on concrete inputs. -/

theorem C1_payload_contract_witness :
    (updateToJ (mkSt 2 1 "alice" "planning" "fix bug" none 10 0)).keys
        = ["user", "yesterday", "today", "blockers", "created_at"]
    ∧ (∀ r ∈ get_risk_report exC1 1 10 2,
        r.type ∈ (["Stale Task", "Repeated Blocker", "Missing Update"] : List String)) := by
  have h := C1_payload_contract exC1 1 10 2 none
  exact ⟨h.2.2.1 _, h.2.2.2.2.1⟩

theorem C3_latest_per_user_witness :
    ([eC3a, eC3b].filter (fun e => e.user_name == eC3b.user_name)).getLast? = some eC3b := by
  exact (C3_latest_per_user [eC3a, eC3b]).2.2.2 eC3b (by decide)

theorem C4_stale_task_witness :
    (∃ te ∈ userDayEntries exC4 1 10 "alice" 10,
     ∃ ye ∈ userDayEntries exC4 1 10 "alice" (10 - 1),
       (∀ e ∈ userDayEntries exC4 1 10 "alice" 10, tsLeP e.created_at te.created_at) ∧
       (∀ e ∈ userDayEntries exC4 1 10 "alice" (10 - 1), tsLeP e.created_at ye.created_at) ∧
       (staleFor (get_risk_report exC4 1 10 2) "alice").length
         = (if normText te.today = normText ye.today then 1 else 0))
    ∧ (staleFor (get_risk_report exC4 1 10 2) "alice").length = 1 := by
  exact ⟨(C4_stale_task exC4 1 10 2 "alice").2 (by decide) (by decide), by decide⟩

theorem C5_repeated_blocker_witness :
    (∃ te ∈ userDayEntries exC5 1 10 "bob" 10,
     ∃ ye ∈ userDayEntries exC5 1 10 "bob" (10 - 1),
       (∀ e ∈ userDayEntries exC5 1 10 "bob" 10, tsLeP e.created_at te.created_at) ∧
       (∀ e ∈ userDayEntries exC5 1 10 "bob" (10 - 1), tsLeP e.created_at ye.created_at) ∧
       (repeatedFor (get_risk_report exC5 1 10 2) "bob").length
         = (if normBlock te.blockers = normBlock ye.blockers ∧
               normBlock te.blockers ∉ ("" :: noBlockerVals) then 1 else 0))
    ∧ (repeatedFor (get_risk_report exC5 1 10 2) "bob").length = 1 := by
  exact ⟨C5_repeated_blocker exC5 1 10 2 "bob" (by decide) (by decide), by decide⟩

theorem C6_missing_update_witness :
    (missingFor (get_risk_report exC6 1 10 2) "carol").length = 1
    ∧ (missingFor (get_risk_report exC6 1 10 2) "dave").length = 0 := by
  have hc := C6_missing_update exC6 1 10 2 "carol" ⟨7, 0⟩ (by decide)
  have hd := C6_missing_update exC6 1 10 2 "dave" ⟨9, 0⟩ (by decide)
  constructor
  · rw [hc.2.2]
    decide
  · rw [hd.2.2]
    decide

theorem C7_fallback_equivalence_witness :
    summarize_standups exC7 (some failingGen) = summarize_standups exC7 none := by
  exact C7_fallback_equivalence exC7 failingGen (by decide) (fun p => ⟨"boom", rfl⟩)

theorem C8_fallback_template_witness :
    summarize_standups [eC8] none = amendedFallbackTemplate [eC8] := by
  exact C8_fallback_template [eC8] (by decide)

theorem C9_submit_validation_witness :
    ((submit_standup [teamC9] [] stC9 (Except.error "down")).2.isOk = true)
    ∧ ((submit_standup [teamC9] [] stC9 (Except.error "down")).1 = [] ++ [stC9])
    ∧ ((submit_standup [teamC9] [] stC9bad (Except.ok ())).1 = []) := by
  have h := C9_submit_validation [teamC9] [] stC9 (Except.error "down") (Except.ok ())
  have hbad := C9_submit_validation [teamC9] [] stC9bad (Except.ok ()) (Except.ok ())
  refine ⟨h.1.mpr ⟨teamC9, by decide, by decide⟩,
    h.2.2.2 ⟨teamC9, by decide, by decide⟩, hbad.2.1 (by decide)⟩
